import Mathlib

/-!
Verification development for the firmadyne firmware extractor
(`baseImage/firmadyne/firmadyne/extractor/extractor.py`).

The Python module is shallowly embedded here.  Files are lists of bytes
(`List Nat`), the on-disk directory trees handed to the root detector are a
small inductive type, free-text binwalk descriptions are kept as the list of
their comma-separated pieces (every pattern the source searches for is
comma-free, so containment in the whole description is containment in one of
the pieces), and the side-effecting parts of the node processor (extracting a
child item, re-reading the output directory in `update_status`) are passed in
as explicit function arguments.  Fallible operations (Python exceptions,
which `ExtractionItem.extract` catches at the node boundary) are modelled
with `Option`, `none` standing for a raised exception.
-/

/-! ### String helpers (Python `in`, `startswith`, `endswith`, `split`, `int`) -/

/-- `leadsWith pat l` is true when `pat` is an initial run of `l`
(Python `str.startswith` at the character-list level). -/
def leadsWith : List Char → List Char → Bool
  | [], _ => true
  | _ :: _, [] => false
  | a :: as, b :: bs => a == b && leadsWith as bs

/-- `hasSub pat l` is true when `pat` occurs contiguously inside `l`
(Python `pat in s`). -/
def hasSub (pat : List Char) : List Char → Bool
  | [] => leadsWith pat []
  | c :: t => leadsWith pat (c :: t) || hasSub pat t

/-- Python `pat in s` on strings. -/
def occursIn (pat s : String) : Bool := hasSub pat.data s.data

/-- Python `s.startswith(pat)`. -/
def startsWithStr (s pat : String) : Bool := leadsWith pat.data s.data

/-- Python `s.endswith(pat)`. -/
def endsWithStr (s pat : String) : Bool := leadsWith pat.data.reverse s.data.reverse

/-- Python `s.split(sep)` for a one-character separator. -/
def splitOnChar (sep : Char) : List Char → List (List Char)
  | [] => [[]]
  | x :: xs =>
    if x == sep then [] :: splitOnChar sep xs
    else
      match splitOnChar sep xs with
      | h :: t => (x :: h) :: t
      | [] => [[x]]

/-- Value of one hexadecimal digit. -/
def hexDigitVal (c : Char) : Option Nat :=
  if 48 ≤ c.toNat ∧ c.toNat ≤ 57 then some (c.toNat - 48)
  else if 97 ≤ c.toNat ∧ c.toNat ≤ 102 then some (c.toNat - 87)
  else if 65 ≤ c.toNat ∧ c.toNat ≤ 70 then some (c.toNat - 55)
  else none

/-- Accumulating evaluation of a hexadecimal digit string. -/
def hexDigitsAux : List Char → Nat → Option Nat
  | [], acc => some acc
  | c :: cs, acc =>
    match hexDigitVal c with
    | some v => hexDigitsAux cs (acc * 16 + v)
    | none => none

/-- Value of a non-empty hexadecimal digit string; `none` on the empty string
or on a non-hex character (Python `int` raises `ValueError`). -/
def hexDigitsVal : List Char → Option Nat
  | [] => none
  | l => hexDigitsAux l 0

/-- Strip whitespace from both ends. -/
def trimWs (l : List Char) : List Char :=
  ((l.dropWhile Char.isWhitespace).reverse.dropWhile Char.isWhitespace).reverse

/-- Python `int(s, 16)`: optional surrounding whitespace, optional sign,
optional `0x`/`0X` prefix, then hexadecimal digits.  (Python's underscore
digit grouping is not modelled; none of the inputs at issue contain it.)
`none` models the `ValueError` raised on malformed input. -/
def pyIntHex (l : List Char) : Option Int :=
  let t := trimWs l
  let signed : Int × List Char :=
    match t with
    | '-' :: r => (-1, r)
    | '+' :: r => (1, r)
    | r => (1, r)
  let body : List Char :=
    match signed.2 with
    | '0' :: 'x' :: r => r
    | '0' :: 'X' :: r => r
    | _ => signed.2
  match hexDigitsVal body with
  | some v => some (signed.1 * (v : Int))
  | none => none

/-- `int(stmt.split(':')[1], 16)` from the TRX parsing loop: hexadecimal value
of the text between the first and second colon. -/
def hexAfterColon (s : String) : Option Int :=
  match splitOnChar ':' s.data with
  | _ :: second :: _ => pyIntHex second
  | _ => none

/-- Python `int(''.join(i for i in stmt if i.isdigit()), 10)`: decimal value
of the digit characters of `s`, `none` (a `ValueError`) when there are none. -/
def digitsVal (s : String) : Option Nat :=
  match s.data.filter Char.isDigit with
  | [] => none
  | ds => some (ds.foldl (fun a c => a * 10 + (c.toNat - 48)) 0)

/-- Containment of `pat` in a description given as its comma-separated
pieces (all patterns the extractor searches for are comma-free, so this
coincides with containment in the joined description). -/
def stmtsContain (stmts : List String) (pat : String) : Bool :=
  stmts.any (fun s => occursIn pat s)

/-! ### Constants of the source -/

/-- `Extractor.UNIX_DIRS`. -/
def UNIX_DIRS : List String :=
  ["bin", "etc", "dev", "home", "lib", "mnt", "opt", "root", "run", "sbin", "tmp", "usr", "var"]

/-- `Extractor.UNIX_THRESHOLD`. -/
def UNIX_THRESHOLD : Nat := 4

/-- `ExtractionItem.RECURSION_BREADTH`. -/
def RECURSION_BREADTH : Nat := 5

/-- `ExtractionItem.RECURSION_DEPTH`. -/
def RECURSION_DEPTH : Nat := 3

/-! ### Blacklist (`ExtractionItem._check_blacklist`) -/

/-- The MIME-type patterns of `_check_blacklist`. -/
def MIME_BLACKLIST : List String :=
  ["application/x-executable", "application/x-dosexec", "application/x-object",
   "application/pdf", "application/msword", "image/", "text/", "video/"]

/-- The free-form-type patterns of `_check_blacklist`. -/
def TYPE_BLACKLIST : List String :=
  ["executable", "universal binary", "relocatable", "bytecode", "applet"]

/-- `ExtractionItem._check_blacklist`, as a function of the MIME type string,
the free-form `magic` type string and the item path.  The source tests the
patterns with Python `in`, i.e. substring containment. -/
def check_blacklist (mime ftype path : String) : Bool :=
  if MIME_BLACKLIST.any (fun s => occursIn s mime) then true
  else if TYPE_BLACKLIST.any (fun s => occursIn s ftype) then true
  else endsWithStr path ".dmg"

/-- Modelled from the spec: the preflight blacklist condition as the spec
words it ("Skip ... when the MIME type starts with any of ..."), i.e. with a
prefix test on the MIME type where the code has a containment test.  Used
only to compare the spec's wording with `check_blacklist`. -/
def blacklistPerSpec (mime ftype path : String) : Bool :=
  MIME_BLACKLIST.any (fun s => startsWithStr mime s) ||
  TYPE_BLACKLIST.any (fun s => occursIn s ftype) ||
  endsWithStr path ".dmg"

/-! ### Preflight short-circuits of `ExtractionItem.extract` -/

/-- Where `ExtractionItem.extract` stops before (or enters) the analysis
cascade.  `completed` is the `get_status()` early return, `depthExceeded` the
recursion-depth return, `alreadyVisited` the visited-set return,
`blacklisted` the `_check_blacklist` return; only `cascade` goes on to create
the scratch directory (`tempfile.mkdtemp()`) and run the six phases. -/
inductive PreflightStep where
  | completed
  | depthExceeded
  | alreadyVisited
  | blacklisted
  | cascade
deriving DecidableEq, Repr

/-- The per-node inputs of the preflight checks: `complete` is `get_status()`
at entry, `checksum` the MD5 digest computed at construction, `mime` and
`ftype` the two `magic` classifications of the file, `path` `self.item`. -/
structure NodeCtx where
  complete : Bool
  depth : Nat
  checksum : String
  mime : String
  ftype : String
  path : String
deriving DecidableEq, Repr

/-- The preflight short-circuits of `ExtractionItem.extract` (lines before
the cascade), as a function of the job's visited set; returns where the
node stopped and the updated visited set.  The test-and-insert of the
checksum happens before the blacklist check, exactly as in the source. -/
def preflight (visited : List String) (n : NodeCtx) : PreflightStep × List String :=
  if n.complete then (.completed, visited)
  else if RECURSION_DEPTH < n.depth then (.depthExceeded, visited)
  else if n.checksum ∈ visited then (.alreadyVisited, visited)
  else
    let v2 := n.checksum :: visited
    if check_blacklist n.mime n.ftype n.path then (.blacklisted, v2)
    else (.cascade, v2)

/-! ### Child ordering in `_check_recursive` (lines 524-540) -/

/-- Character-list lexicographic (code-point) order: Python string
comparison, as used by `files.sort()`. -/
def lexLe : List Char → List Char → Bool
  | [], _ => true
  | _ :: _, [] => false
  | a :: as, b :: bs =>
    if a.toNat < b.toNat then true
    else if b.toNat < a.toNat then false
    else lexLe as bs

/-- Lexicographic order on strings. -/
def strLexLe (a b : String) : Bool := lexLe a.data b.data

/-- Length order on strings, the key of `files.sort(key=len)`. -/
def lenLe (a b : String) : Bool := a.length ≤ b.length

/-- Stable insertion: the new element goes after every already-placed element
that is `le`-below-or-equal to it, matching the stability contract of
Python's `list.sort`. -/
def insertStable (le : String → String → Bool) (x : String) : List String → List String
  | [] => [x]
  | y :: ys => if le y x then y :: insertStable le x ys else x :: y :: ys

/-- Stable sort (insertion sort, inserting left to right); models Python's
stable `list.sort` with comparison `le`. -/
def stableSort (le : String → String → Bool) (l : List String) : List String :=
  l.foldl (fun acc x => insertStable le x acc) []

/-- The child ordering of `_check_recursive`: `files.sort()` followed by
`files.sort(key=len)` (both stable). -/
def sortFiles (files : List String) : List String :=
  stableSort lenLe (stableSort strLexLe files)

/-- The two-key order the final queue is sorted by: shorter names first,
names of equal length in lexicographic order. -/
def twoKeyLe (a b : String) : Prop :=
  a.length < b.length ∨ (a.length = b.length ∧ strLexLe a b = true)

/-- The `orig = stmt.split('"')[1]` loop of `_check_recursive`: the last
comma-piece containing `original file name:` supplies `orig` as the text
between its first two double quotes.  Outer `none` models the `IndexError`
raised when that piece has no double quote; the inner option is `orig`
itself, which starts out as Python `None`. -/
def parseOrig (stmts : List String) : Option (Option String) :=
  stmts.foldlM
    (fun acc stmt =>
      if occursIn "original file name:" stmt then
        match splitOnChar '"' stmt.data with
        | _ :: second :: _ => some (some (String.mk second))
        | _ => none
      else some acc)
    none

/-- The full child queue of `_check_recursive` for one walked directory:
sort by name, stably re-sort by length, then move the restored original
file name (if any, non-empty, and present) to the front.  `none` models an
exception escaping to `extract`'s handler. -/
def childQueue (desc : Option (List String)) (files : List String) : Option (List String) :=
  let sorted := sortFiles files
  match desc with
  | none => some sorted
  | some stmts =>
    if stmtsContain stmts "original file name:" then
      match parseOrig stmts with
      | none => none
      | some none => some sorted
      | some (some orig) =>
        if orig ≠ "" && sorted.contains orig then some (orig :: sorted.erase orig)
        else some sorted
    else some sorted

/-! ### The child-processing loop of `_check_recursive` (lines 541-551) -/

/-- How the child loop of `_check_recursive` ended.  `breadthTerm`: the
breadth check fired (`count > RECURSION_BREADTH`), the sticky `terminate`
flag was set and the phase returned `True` ("changed") without processing
the current child.  `completedRun`: a child's `extract()` returned `True`
and the following `update_status()` returned `True`, so the phase returned
`True`.  `exhausted`: the queue ran out (the phase falls through). -/
inductive RecOutcome where
  | breadthTerm
  | completedRun
  | exhausted
deriving DecidableEq, Repr

/-- The child loop of `_check_recursive` over one queue of file names.
`extractChild f d` stands for `ExtractionItem(self.extractor, f, d).extract()`
and `updateStatus k` for the `self.update_status()` call made after the
`k`-th child completed; both are passed in as oracles since they read the
filesystem.  Children are constructed at `depth + 1`.  The returned list
records, in order, every child actually constructed and recursed into,
together with its depth. -/
def childLoop (extractChild : String → Nat → Bool) (updateStatus : Nat → Bool)
    (depth : Nat) : List String → Nat → RecOutcome × List (String × Nat)
  | [], _ => (.exhausted, [])
  | f :: fs, count =>
    if RECURSION_BREADTH < count then (.breadthTerm, [])
    else if extractChild f (depth + 1) && updateStatus count then
      (.completedRun, [(f, depth + 1)])
    else
      let r := childLoop extractChild updateStatus depth fs (count + 1)
      (r.1, (f, depth + 1) :: r.2)

/-! ### Root detector (`Extractor.io_find_rootfs`) -/

/-- A directory tree as seen through `os.listdir` / `os.path.isdir`: a file,
or a directory with a (listing-ordered) list of named entries. -/
inductive FsTree where
  | file : FsTree
  | dir : List (String × FsTree) → FsTree

/-- `os.path.isdir`. -/
def FsTree.isDirB : FsTree → Bool
  | .dir _ => true
  | .file => false

/-- The entries of a directory (`os.listdir` plus the subtrees). -/
def childrenOf : FsTree → List (String × FsTree)
  | .dir cs => cs
  | .file => []

/-- The single-directory-chain unwrapping loop at the top of
`io_find_rootfs`: while the directory has exactly one entry and that entry
is a directory, descend into it.  Returns the final tree and the relative
path (list of entry names) descended through; `[]` means the start itself. -/
def unwrapChain (t : FsTree) : FsTree × List String :=
  match t with
  | FsTree.dir [(n, c)] =>
    if c.isDirB then
      let r := unwrapChain c
      (r.1, n :: r.2)
    else (t, [])
  | _ => (t, [])
termination_by sizeOf t
decreasing_by
  simp_wf
  omega

/-- The `count` loop of `io_find_rootfs`: the number of immediate entries
whose name is in `UNIX_DIRS` and which are directories. -/
def countUnix (t : FsTree) : Nat :=
  ((childrenOf t).filter (fun p => UNIX_DIRS.contains p.1 && p.2.isDirB)).length

/-- The body of `io_find_rootfs` for `recurse=False`: unwrap single-child
chains, then test the UNIX-directory threshold. -/
def qualifiesNR (t : FsTree) : Bool :=
  UNIX_THRESHOLD ≤ countUnix (unwrapChain t).1

/-- `Extractor.io_find_rootfs`.  Returns the detection flag and the path of
the result relative to `start` (`[]` denotes `start` itself, which is also
what the failure branch `return (False, start)` yields).  The source's
single recursive call passes `recurse=False`, under which the callee reduces
to the unwrap-and-count test `qualifiesNR`; that one level of self-reference
is inlined here, so the definition needs no recursion of its own. -/
def io_find_rootfs (start : FsTree) (recurse : Bool) : Bool × List String :=
  let u := unwrapChain start
  if UNIX_THRESHOLD ≤ countUnix u.1 then (true, u.2)
  else if recurse then
    match (childrenOf u.1).find? (fun p => p.2.isDirB && qualifiesNR p.2) with
    | some p => (true, u.2 ++ p.1 :: (unwrapChain p.2).2)
    | none => (false, [])
  else (false, [])

/-- A directory with the four entries `bin`, `etc`, `lib`, `usr`. -/
def rootSample : FsTree :=
  .dir [("bin", .dir []), ("etc", .dir []), ("lib", .dir []), ("usr", .dir [])]

/-! ### Firmware carving (`ExtractionItem._check_firmware`) -/

/-- One binwalk `Finding`: the byte offset and the description, kept as its
comma-separated pieces (`description.split(',')`). -/
structure Finding where
  offset : Nat
  stmts : List String

/-- Python `pat in entry.description` for a comma-free pattern. -/
def findingContains (f : Finding) (pat : String) : Bool :=
  stmtsContain f.stmts pat

/-- `Extractor.io_dd` for non-negative offset and size: seek to `offset`
and copy `size` bytes (or whatever remains) into the fresh output file;
a zero `size` returns at once, leaving the output file empty. -/
def io_dd (item : List Nat) (offset size : Nat) : List Nat :=
  if size = 0 then [] else (item.drop offset).take size

/-- `Extractor.io_dd` as reached from the TRX branch, where the Python ints
may be negative: a zero size returns at once; a negative seek offset raises
(`none`); `read` with a negative size reads to end of file. -/
def io_dd_int (item : List Nat) (offset size : Int) : Option (List Nat) :=
  if size = 0 then some []
  else if offset < 0 then none
  else if size < 0 then some (item.drop offset.toNat)
  else some ((item.drop offset.toNat).take size.toNat)

/-- The `image size:` parsing loop of the uImage branch: scan the
comma-pieces; each piece containing `image size:` overwrites the size with
the decimal value of its digit characters (`none` on a digitless piece,
Python's `ValueError`).  The size starts at `0`. -/
def parseKernelSize (stmts : List String) : Option Nat :=
  stmts.foldlM
    (fun ks stmt =>
      if occursIn "image size:" stmt then digitsVal stmt
      else some ks)
    0

/-- The TRX field-parsing loop (lines 407-415): each comma-piece updates one
of `(kernel_offset, kernel_size, rootfs_offset, rootfs_size)` with the
hexadecimal value after its first colon, tried in the source's `elif`
order.  All four start at `0`; `none` models a `ValueError`. -/
def parseTrx (stmts : List String) : Option (Int × Int × Int × Int) :=
  stmts.foldlM
    (fun acc stmt =>
      let (ko, ks, ro, rs) := acc
      if occursIn "kernel offset:" stmt then
        (hexAfterColon stmt).map (fun v => (v, ks, ro, rs))
      else if occursIn "kernel length:" stmt then
        (hexAfterColon stmt).map (fun v => (ko, v, ro, rs))
      else if occursIn "rootfs offset:" stmt then
        (hexAfterColon stmt).map (fun v => (ko, ks, v, rs))
      else if occursIn "rootfs length:" stmt then
        (hexAfterColon stmt).map (fun v => (ko, ks, ro, v))
      else some acc)
    (0, 0, 0, 0)

/-- Lines 417-420: `compute sizes if only offsets provided`.  The missing
lengths are inferred only under the source's guard
`kernel_offset != rootfs_size and kernel_size == 0 and rootfs_size == 0`. -/
def trxInferSizes (filesize koff ksize roff rsize : Int) : Int × Int :=
  if koff ≠ rsize ∧ ksize = 0 ∧ rsize = 0 then (roff - koff, filesize - roff)
  else (ksize, rsize)

/-- The inputs of `_check_firmware`: the item's bytes, the two status flags
read by the branches, the node's depth, and two oracles: `extractChild c d`
stands for `ExtractionItem(self.extractor, tmp_path, d).extract()` on a
carved child with content `c`, and `updateStatus` for the
`self.update_status()` returned after the two TRX children. -/
structure FwEnv where
  item : List Nat
  kernelStatus : Bool
  rootfsStatus : Bool
  depth : Nat
  extractChild : List Nat → Nat → Bool
  updateStatus : Bool

/-- `ExtractionItem._check_firmware` over the flattened sequence of findings
(the module loop only chains the result lists; every `return` leaves the
whole function).  Result: `none` for an escaped exception, otherwise the
phase's boolean together with the log of carved children, each as
`(content, depth)` — both carving branches construct children at the node's
own depth, not `depth + 1`. -/
def checkFirmware (env : FwEnv) : List Finding → Option (Bool × List (List Nat × Nat))
  | [] => some (false, [])
  | f :: rest =>
    if findingContains f "uImage header" then
      if !env.kernelStatus && findingContains f "OS Kernel Image" then
        match parseKernelSize f.stmts with
        | none => none
        | some ksize =>
          let koff := f.offset + 64
          if ksize ≠ 0 ∧ koff + ksize ≤ env.item.length then
            let carved := io_dd env.item koff ksize
            some (env.extractChild carved env.depth, [(carved, env.depth)])
          else checkFirmware env rest
      else checkFirmware env rest
    else if !env.kernelStatus && !env.rootfsStatus &&
        findingContains f "rootfs offset: " && findingContains f "kernel offset: " then
      match parseTrx f.stmts with
      | none => none
      | some (koff, ks0, ro, rs0) =>
        let sz := trxInferSizes (env.item.length : Int) koff ks0 ro rs0
        if 0 < sz.1 ∧ koff + sz.1 ≤ (env.item.length : Int) ∧
            sz.2 ≠ 0 ∧ ro + sz.2 ≤ (env.item.length : Int) then
          match io_dd_int env.item koff sz.1, io_dd_int env.item ro sz.2 with
          | some kc, some rc => some (env.updateStatus, [(kc, env.depth), (rc, env.depth)])
          | _, _ => none
        else checkFirmware env rest
    else checkFirmware env rest

/-- TRX environment for the concrete checks below. -/
def fwEnvNull : FwEnv :=
  { item := List.replicate 512 0, kernelStatus := false, rootfsStatus := false,
    depth := 0, extractChild := fun _ _ => false, updateStatus := false }

/-- Environment for the concrete uImage checks: every child reports
completion. -/
def fwEnvTrue : FwEnv :=
  { item := List.replicate 128 7, kernelStatus := false, rootfsStatus := false,
    depth := 0, extractChild := fun _ _ => true, updateStatus := false }

/-! ### Kernel phase (`ExtractionItem._check_kernel`) -/

/-- The job-state effect of phase 4: copy the whole node file to
`self.get_kernel_path()` (`O/T.kernel`), clear the job flag
`self.extractor.do_kernel`, or leave the job state untouched. -/
inductive KernelAction where
  | copyToOutput
  | clearDoKernel
  | noAction
deriving DecidableEq, Repr

/-- The entry loop of `_check_kernel` over one module's findings: the first
description containing `kernel version` decides the phase — `Linux` present
means copy the node to the kernel output (or, with no output path, clear
`do_kernel`) and report a change; `Linux` absent (VxWorks etc.) means
reject the finding and return `False` immediately.  Exhausting the entries
also returns `False` (the `return False` after the inner loop). -/
def scanKernelEntries (outputDefined : Bool) : List (List String) → KernelAction × Bool
  | [] => (.noAction, false)
  | d :: rest =>
    if stmtsContain d "kernel version" then
      if stmtsContain d "Linux" then
        if outputDefined then (.copyToOutput, true) else (.clearDoKernel, true)
      else (.noAction, false)
    else scanKernelEntries outputDefined rest

/-- `ExtractionItem._check_kernel`: nothing happens when the kernel is
already done; otherwise the first scanned module's result list is examined
(the `return False` at the end of the first module-loop iteration makes any
further modules unreachable). -/
def check_kernel (kernelStatus outputDefined : Bool)
    (modules : List (List (List String))) : KernelAction × Bool :=
  if kernelStatus then (.noAction, false)
  else
    match modules with
    | [] => (.noAction, false)
    | m :: _ => scanKernelEntries outputDefined m

/-! ### Helper lemmas -/

/-- The processed-children list of the child loop is bounded by the breadth
budget remaining at the entry counter value. -/
theorem childLoop_len_le (ec : String → Nat → Bool) (us : Nat → Bool) (d : Nat) :
    ∀ (q : List String) (c : Nat),
      (childLoop ec us d q c).2.length ≤ RECURSION_BREADTH + 1 - c := by
  intro q
  induction q with
  | nil => intro c; simp [childLoop]
  | cons f fs ih =>
    intro c
    simp only [childLoop]
    split
    · simp
    · split
      · rename_i hc _
        simp only [List.length_cons, List.length_nil]
        simp only [RECURSION_BREADTH, not_lt] at hc ⊢
        omega
      · rename_i hc _
        have h1 := ih (c + 1)
        simp only [List.length_cons]
        simp only [RECURSION_BREADTH, not_lt] at hc h1 ⊢
        omega

/-- Every child the loop constructs is constructed at `depth + 1`. -/
theorem childLoop_depth (ec : String → Nat → Bool) (us : Nat → Bool) (d : Nat) :
    ∀ (q : List String) (c : Nat) (e : String × Nat),
      e ∈ (childLoop ec us d q c).2 → e.2 = d + 1 := by
  intro q
  induction q with
  | nil => intro c e he; simp [childLoop] at he
  | cons f fs ih =>
    intro c e he
    simp only [childLoop] at he
    split at he
    · simp at he
    · split at he
      · simp at he
        subst he
        rfl
      · simp only [List.mem_cons] at he
        rcases he with rfl | he
        · rfl
        · exact ih (c + 1) e he

/-! ### Claims C1 and C6: breadth bound of `_check_recursive` -/

/-- Claim C6: within any single container directory at most 6 children
(counter values 0 through 5 inclusive) are attempted before `terminate` is
set — the processed list never exceeds `RECURSION_BREADTH + 1 - count`
entries — and when the counter would exceed `RECURSION_BREADTH = 5` the
loop sets `terminate` and returns "changed" (`breadthTerm`) without
processing the current child (the processed list it returns is empty). -/
theorem claim_C6_breadth_bound :
    (∀ (ec : String → Nat → Bool) (us : Nat → Bool) (d : Nat) (q : List String) (c : Nat),
       (childLoop ec us d q c).2.length ≤ RECURSION_BREADTH + 1 - c) ∧
    (∀ (ec : String → Nat → Bool) (us : Nat → Bool) (d : Nat) (f : String)
       (fs : List String) (c : Nat), RECURSION_BREADTH < c →
       childLoop ec us d (f :: fs) c = (RecOutcome.breadthTerm, [])) := by
  constructor
  · exact childLoop_len_le
  · intro ec us d f fs c hc
    simp [childLoop, hc]

/-- Witness for C6 at a concrete counter value past the breadth limit. -/
theorem claim_C6_witness :
    RECURSION_BREADTH < 6 ∧
    childLoop (fun _ _ => false) (fun _ => false) 0 ["z"] 6 =
      (RecOutcome.breadthTerm, []) :=
  ⟨by decide, claim_C6_breadth_bound.2 (fun _ _ => false) (fun _ => false) 0 "z" [] 6 (by decide)⟩

/-- Claim C1 counterexample: a container directory with 7 children, none of
which completes the job, processes 6 children — strictly more than
`RECURSION_BREADTH = 5` — before the breadth check fires and sets
`terminate`. -/
theorem claim_C1_counterexample :
    (childLoop (fun _ _ => false) (fun _ => false) 0
        ["a", "b", "c", "d", "e", "f", "g"] 0).1 = RecOutcome.breadthTerm ∧
    (childLoop (fun _ _ => false) (fun _ => false) 0
        ["a", "b", "c", "d", "e", "f", "g"] 0).2.length = 6 ∧
    ¬ (childLoop (fun _ _ => false) (fun _ => false) 0
        ["a", "b", "c", "d", "e", "f", "g"] 0).2.length ≤ RECURSION_BREADTH := by
  decide

/-- Claim C1 (amended): the number of child files processed as new
`ExtractionItem`s from one container directory never exceeds
`RECURSION_BREADTH + 1 = 6` — the check `count > RECURSION_BREADTH` fires
only after the children at counter values 0..5 have been processed. -/
theorem claim_C1_amended_breadth :
    ∀ (ec : String → Nat → Bool) (us : Nat → Bool) (d : Nat) (q : List String),
      (childLoop ec us d q 0).2.length ≤ RECURSION_BREADTH + 1 := by
  intro ec us d q
  simpa using childLoop_len_le ec us d q 0

/-! ### Claim C7: depth bound -/

/-- Claim C7: a node whose depth exceeds `RECURSION_DEPTH = 3` never runs
the analysis cascade: `extract` returns its current completion status
before creating a scratch directory (the preflight result is not
`cascade`, and the visited set is left untouched — the depth check precedes
even the visited-set insertion); conversely every node that reaches the
cascade has depth at most 3; and the two child-constructing phases spawn
container children at `depth + 1` and carved firmware children at the
parent's own depth. -/
theorem claim_C7_depth_bound :
    (∀ (v : List String) (n : NodeCtx), RECURSION_DEPTH < n.depth →
       (preflight v n).1 =
         (if n.complete then PreflightStep.completed else PreflightStep.depthExceeded) ∧
       (preflight v n).2 = v) ∧
    (∀ (v : List String) (n : NodeCtx),
       (preflight v n).1 = PreflightStep.cascade → n.depth ≤ RECURSION_DEPTH) ∧
    (∀ (ec : String → Nat → Bool) (us : Nat → Bool) (d : Nat) (q : List String) (c : Nat)
       (e : String × Nat), e ∈ (childLoop ec us d q c).2 → e.2 = d + 1) ∧
    (∀ (env : FwEnv) (l : List Finding) (r : Bool × List (List Nat × Nat)),
       checkFirmware env l = some r → ∀ e ∈ r.2, e.2 = env.depth) := by
  refine ⟨?_, ?_, childLoop_depth, ?_⟩
  · intro v n hd
    by_cases hc : n.complete
    · simp [preflight, hc]
    · simp [preflight, hc, hd]
  · intro v n h
    by_contra hd
    rw [not_le] at hd
    by_cases hc : n.complete
    · simp [preflight, hc] at h
    · simp [preflight, hc, hd] at h
  · intro env l
    induction l with
    | nil =>
      intro r h e he
      simp only [checkFirmware] at h
      cases h
      simp at he
    | cons f rest ih =>
      intro r h e he
      simp only [checkFirmware] at h
      split at h
      · split at h
        · split at h
          · exact absurd h (by simp)
          · split at h
            · cases h
              simp only [List.mem_singleton] at he
              subst he
              rfl
            · exact ih r h e he
        · exact ih r h e he
      · split at h
        · split at h
          · exact absurd h (by simp)
          · split at h
            · split at h
              · cases h
                simp only [List.mem_cons, List.mem_singleton, List.not_mem_nil, or_false] at he
                rcases he with rfl | rfl <;> rfl
              · exact absurd h (by simp)
            · exact ih r h e he
        · exact ih r h e he

/-- Witness for C7 at a concrete depth-4 node. -/
theorem claim_C7_witness :
    RECURSION_DEPTH < 4 ∧
    (preflight [] ⟨false, 4, "c", "application/zip", "Zip data", "f.zip"⟩).1 =
      PreflightStep.depthExceeded :=
  ⟨by decide,
   (claim_C7_depth_bound.1 [] ⟨false, 4, "c", "application/zip", "Zip data", "f.zip"⟩
     (by decide)).1⟩

/-! ### Claim C10: visited-set test-and-insert precedes the blacklist -/

/-- Claim C10: the digest test-and-insert happens before the blacklist
check, so a node skipped by the blacklist leaves its digest in the visited
set; any later node with the same digest (whatever its own MIME type, free
form type or path) is then short-circuited as already visited, with the
visited set unchanged; and the insertion is guarded by the membership test,
so a duplicate-free visited set stays duplicate-free. -/
theorem claim_C10_visited_set :
    (∀ (v : List String) (n : NodeCtx),
       (preflight v n).1 = PreflightStep.blacklisted → n.checksum ∈ (preflight v n).2) ∧
    (∀ (v : List String) (n n2 : NodeCtx),
       ((preflight v n).1 = PreflightStep.blacklisted ∨
        (preflight v n).1 = PreflightStep.cascade) →
       n2.checksum = n.checksum → n2.complete = false → n2.depth ≤ RECURSION_DEPTH →
       preflight (preflight v n).2 n2 =
         (PreflightStep.alreadyVisited, (preflight v n).2)) ∧
    (∀ (v : List String) (n : NodeCtx), v.Nodup → ((preflight v n).2).Nodup) := by
  refine ⟨?_, ?_, ?_⟩
  · intro v n h
    by_cases hc : n.complete
    · simp [preflight, hc] at h
    · by_cases hd : RECURSION_DEPTH < n.depth
      · simp [preflight, hc, hd] at h
      · by_cases hv : n.checksum ∈ v
        · simp [preflight, hc, hd, hv] at h
        · by_cases hb : check_blacklist n.mime n.ftype n.path
          · simp [preflight, hc, hd, hv, hb]
          · simp [preflight, hc, hd, hv, hb]
  · intro v n n2 h h2 hc2 hd2
    have hins : (preflight v n).2 = n.checksum :: v := by
      by_cases hc : n.complete
      · simp [preflight, hc] at h
      · by_cases hd : RECURSION_DEPTH < n.depth
        · simp [preflight, hc, hd] at h
        · by_cases hv : n.checksum ∈ v
          · simp [preflight, hc, hd, hv] at h
          · by_cases hb : check_blacklist n.mime n.ftype n.path
            · simp [preflight, hc, hd, hv, hb]
            · simp [preflight, hc, hd, hv, hb]
    rw [hins]
    have hmem : n2.checksum ∈ n.checksum :: v := by
      rw [h2]; exact List.mem_cons_self _ _
    simp [preflight, hc2, Nat.not_lt.mpr hd2, hmem]
  · intro v n hnd
    by_cases hc : n.complete
    · simpa [preflight, hc] using hnd
    · by_cases hd : RECURSION_DEPTH < n.depth
      · simpa [preflight, hc, hd] using hnd
      · by_cases hv : n.checksum ∈ v
        · simpa [preflight, hc, hd, hv] using hnd
        · have hcons : (n.checksum :: v).Nodup := List.nodup_cons.mpr ⟨hv, hnd⟩
          by_cases hb : check_blacklist n.mime n.ftype n.path
          · simpa [preflight, hc, hd, hv, hb] using hcons
          · simpa [preflight, hc, hd, hv, hb] using hcons

/-- Witness for C10: a concrete text file is blacklisted, its digest stays
in the visited set, and an identical-content non-blacklisted copy is then
skipped as already visited. -/
theorem claim_C10_witness :
    (preflight [] ⟨false, 0, "md5x", "text/plain", "ASCII text", "a.txt"⟩).1 =
      PreflightStep.blacklisted ∧
    "md5x" ∈ (preflight [] ⟨false, 0, "md5x", "text/plain", "ASCII text", "a.txt"⟩).2 ∧
    preflight (preflight [] ⟨false, 0, "md5x", "text/plain", "ASCII text", "a.txt"⟩).2
        ⟨false, 1, "md5x", "application/zip", "Zip data", "b.zip"⟩ =
      (PreflightStep.alreadyVisited,
       (preflight [] ⟨false, 0, "md5x", "text/plain", "ASCII text", "a.txt"⟩).2) :=
  ⟨by decide,
   claim_C10_visited_set.1 [] ⟨false, 0, "md5x", "text/plain", "ASCII text", "a.txt"⟩ (by decide),
   claim_C10_visited_set.2.1 [] ⟨false, 0, "md5x", "text/plain", "ASCII text", "a.txt"⟩
     ⟨false, 1, "md5x", "application/zip", "Zip data", "b.zip"⟩ (Or.inl (by decide))
     rfl rfl (by decide)⟩

/-! ### Claim C3: the preflight blacklist -/

/-- Claim C3 counterexample: the node with MIME type `xtext/plain` (which
contains `text/` but starts with none of the eight patterns, and whose free
form type and path are innocuous) is skipped by the blacklist, although the
claim's skip condition — MIME type *starts with* one of the patterns — does
not hold of it (`blacklistPerSpec` renders the claim's wording). -/
theorem claim_C3_counterexample :
    (preflight [] ⟨false, 0, "d41d8", "xtext/plain", "data", "f.bin"⟩).1 =
      PreflightStep.blacklisted ∧
    blacklistPerSpec "xtext/plain" "data" "f.bin" = false := by
  decide

/-- Claim C3 (amended): a node reaching preflight step 4 (not complete, not
past the depth bound, digest not yet visited) is skipped by the blacklist —
returning its current completion status without creating a scratch
directory — exactly when its MIME type *contains* one of the eight MIME
patterns, or its free-form type contains one of the five type words, or its
path ends with `.dmg`. -/
theorem claim_C3_amended_blacklist :
    ∀ (v : List String) (n : NodeCtx), n.complete = false → n.depth ≤ RECURSION_DEPTH →
      n.checksum ∉ v →
      ((preflight v n).1 = PreflightStep.blacklisted ↔
        (MIME_BLACKLIST.any (fun s => occursIn s n.mime) = true ∨
         TYPE_BLACKLIST.any (fun s => occursIn s n.ftype) = true ∨
         endsWithStr n.path ".dmg" = true)) := by
  intro v n hc hd hv
  have hblack : check_blacklist n.mime n.ftype n.path = true ↔
      (MIME_BLACKLIST.any (fun s => occursIn s n.mime) = true ∨
       TYPE_BLACKLIST.any (fun s => occursIn s n.ftype) = true ∨
       endsWithStr n.path ".dmg" = true) := by
    unfold check_blacklist
    split
    · rename_i h1
      simp [h1]
    · split
      · rename_i h1 h2
        simp [h1, h2]
      · rename_i h1 h2
        simp [h1, h2]
  by_cases hb : check_blacklist n.mime n.ftype n.path
  · simp only [preflight, hc, Bool.false_eq_true, if_false, Nat.not_lt.mpr hd, if_false, hv,
      if_false, hb, if_true]
    simpa using hblack.mp hb
  · simp only [preflight, hc, Bool.false_eq_true, if_false, Nat.not_lt.mpr hd, if_false, hv,
      if_false, hb]
    constructor
    · intro h
      simp at h
    · intro h
      exact absurd (hblack.mpr h) hb

/-- Witness for C3: a concrete `text/plain` node is skipped by the
blacklist via the containment characterization. -/
theorem claim_C3_witness :
    (preflight [] ⟨false, 0, "c0ffee", "text/plain", "ASCII text", "a.txt"⟩).1 =
      PreflightStep.blacklisted :=
  (claim_C3_amended_blacklist [] ⟨false, 0, "c0ffee", "text/plain", "ASCII text", "a.txt"⟩
    rfl (by decide) (by simp)).mpr (Or.inl (by decide))

/-! ### Claim C9: the kernel phase -/

/-- Entries without `kernel version` are passed over by phase 4's scan. -/
theorem scanKernelEntries_skip (outD : Bool) :
    ∀ (pre rest : List (List String)),
      (∀ e ∈ pre, stmtsContain e "kernel version" = false) →
      scanKernelEntries outD (pre ++ rest) = scanKernelEntries outD rest := by
  intro pre
  induction pre with
  | nil => intro rest _; rfl
  | cons e es ih =>
    intro rest hall
    have he : stmtsContain e "kernel version" = false := hall e (by simp)
    simp only [List.cons_append, scanKernelEntries, he, Bool.false_eq_true, if_false]
    exact ih rest (fun x hx => hall x (by simp [hx]))

/-- Claim C9: in phase 4 (entered with the kernel not yet done), the first
`kernel version` finding of the scanned module decides the phase: a
description containing `Linux` copies the node file to the kernel output
path and reports a change when the output path is defined, clears the job
flag `do_kernel` and reports a change when it is not; a description without
`Linux` is rejected, changes no job state, and makes the phase return
"no change" at once, so the first non-Linux match ends the phase and the
cascade goes on to the next phase. -/
theorem claim_C9_kernel_phase :
    ∀ (outD : Bool) (pre : List (List String)) (d : List String) (rest : List (List String)),
      (∀ e ∈ pre, stmtsContain e "kernel version" = false) →
      stmtsContain d "kernel version" = true →
      ((stmtsContain d "Linux" = true → outD = true →
          check_kernel false outD [pre ++ d :: rest] = (KernelAction.copyToOutput, true)) ∧
       (stmtsContain d "Linux" = true → outD = false →
          check_kernel false outD [pre ++ d :: rest] = (KernelAction.clearDoKernel, true)) ∧
       (stmtsContain d "Linux" = false →
          check_kernel false outD [pre ++ d :: rest] = (KernelAction.noAction, false))) := by
  intro outD pre d rest hpre hd
  have hck : check_kernel false outD [pre ++ d :: rest] =
      scanKernelEntries outD (pre ++ d :: rest) := by
    simp [check_kernel]
  have hskip := scanKernelEntries_skip outD pre (d :: rest) hpre
  refine ⟨?_, ?_, ?_⟩
  · intro hlin hout
    subst hout
    rw [hck, hskip]
    simp [scanKernelEntries, hd, hlin]
  · intro hlin hout
    subst hout
    rw [hck, hskip]
    simp [scanKernelEntries, hd, hlin]
  · intro hlin
    rw [hck, hskip]
    simp [scanKernelEntries, hd, hlin]

/-- Witness for C9 on concrete findings: a preceding non-kernel entry, then
a Linux kernel-version entry with a defined output path. -/
theorem claim_C9_witness :
    stmtsContain ["Linux kernel version 2.6.30"] "kernel version" = true ∧
    check_kernel false true [[["squashfs filesystem"], ["Linux kernel version 2.6.30"]]] =
      (KernelAction.copyToOutput, true) :=
  ⟨by decide,
   (claim_C9_kernel_phase true [["squashfs filesystem"]] ["Linux kernel version 2.6.30"] []
     (by decide) (by decide)).1 (by decide) rfl⟩

/-! ### Claims C5 and C2: firmware carving -/

/-- Findings containing neither `uImage header` nor `kernel offset: ` are
passed over by `_check_firmware` without any action. -/
theorem checkFirmware_skip (env : FwEnv) :
    ∀ (pre rest : List Finding),
      (∀ e ∈ pre, findingContains e "uImage header" = false ∧
                  findingContains e "kernel offset: " = false) →
      checkFirmware env (pre ++ rest) = checkFirmware env rest := by
  intro pre
  induction pre with
  | nil => intro rest _; rfl
  | cons e es ih =>
    intro rest hall
    have he := hall e (by simp)
    simp only [List.cons_append, checkFirmware, he.1, Bool.false_eq_true, if_false, he.2,
      Bool.and_false, if_false]
    exact ih rest (fun x hx => hall x (by simp [hx]))

/-- Claim C5 counterexample: a uImage `OS Kernel Image` finding whose
declared `image size` is 0 passes the claim's hypotheses (kernel not done,
`offset + 64 + 0 ≤ filesize`), yet the code — whose guard also demands
`kernel_size != 0` — carves nothing, constructs no child, and returns
"no change" rather than the child's completion status (which the claim
would make `extractChild [] 0 = true` here). -/
theorem claim_C5_counterexample :
    checkFirmware fwEnvTrue [⟨0, ["uImage header", " OS Kernel Image", " image size: 0"]⟩] =
      some (false, []) ∧
    fwEnvTrue.extractChild (io_dd fwEnvTrue.item 64 0) fwEnvTrue.depth = true := by
  decide

/-- Claim C5 (amended): a uImage `OS Kernel Image` finding with a declared
*nonzero* image size `N` satisfying `offset + 64 + N ≤ filesize`, reached
with the kernel not yet done, makes phase 3 carve exactly the `N` bytes
starting at `offset + 64` into a fresh child, recurse into it at the node's
own depth (not `depth + 1`), and return the child's completion status as
the phase result. -/
theorem claim_C5_amended_uimage :
    ∀ (env : FwEnv) (pre : List Finding) (f : Finding) (rest : List Finding) (N : Nat),
      (∀ e ∈ pre, findingContains e "uImage header" = false ∧
                  findingContains e "kernel offset: " = false) →
      env.kernelStatus = false →
      findingContains f "uImage header" = true →
      findingContains f "OS Kernel Image" = true →
      parseKernelSize f.stmts = some N →
      N ≠ 0 →
      f.offset + 64 + N ≤ env.item.length →
      checkFirmware env (pre ++ f :: rest) =
        some (env.extractChild ((env.item.drop (f.offset + 64)).take N) env.depth,
              [((env.item.drop (f.offset + 64)).take N, env.depth)]) ∧
      ((env.item.drop (f.offset + 64)).take N).length = N := by
  intro env pre f rest N hpre hks hu ho hp hn hb
  constructor
  · rw [checkFirmware_skip env pre (f :: rest) hpre]
    simp only [checkFirmware, hu, if_true, hks, Bool.not_false, ho, Bool.and_self, if_true, hp]
    have hguard : N ≠ 0 ∧ f.offset + 64 + N ≤ env.item.length := ⟨hn, hb⟩
    rw [if_pos hguard]
    simp [io_dd, hn]
  · rw [List.length_take, List.length_drop]
    omega

/-- Witness for C5: a concrete 10-byte carve out of an 80-byte item at
offset 0. -/
theorem claim_C5_witness :
    checkFirmware
        { item := List.replicate 80 3, kernelStatus := false, rootfsStatus := false,
          depth := 2, extractChild := fun c d => c.length == 10 && d == 2,
          updateStatus := false }
        [⟨0, ["uImage header", " OS Kernel Image", " image size: 10"]⟩] =
      some (true, [(List.replicate 10 3, 2)]) := by
  have h := claim_C5_amended_uimage
    { item := List.replicate 80 3, kernelStatus := false, rootfsStatus := false,
      depth := 2, extractChild := fun c d => c.length == 10 && d == 2,
      updateStatus := false }
    [] ⟨0, ["uImage header", " OS Kernel Image", " image size: 10"]⟩ [] 10
    (by simp) rfl (by decide) (by decide) (by decide) (by decide) (by decide)
  rw [List.nil_append] at h
  rw [h.1]
  decide

/-- Claim C2 counterexample: a TRX finding supplying `kernel offset: 0x0`
and `rootfs offset: 0x100` and no lengths.  The claim says the missing
lengths are inferred as `rootfs_offset - kernel_offset = 256` and
`filesize - rootfs_offset = 256` and the two slices carved; but the
source's inference guard `kernel_offset != rootfs_size` compares the
offset with `rootfs_size` (still 0 here), so with `kernel_offset = 0` the
inference is skipped, both sizes stay 0, the bound check
`kernel_size > 0` fails, and the phase carves nothing and reports
"no change". -/
theorem claim_C2_counterexample :
    trxInferSizes 512 0 0 256 0 = (0, 0) ∧
    trxInferSizes 512 0 0 256 0 ≠ (256 - 0, 512 - 256) ∧
    checkFirmware fwEnvNull [⟨0, ["kernel offset: 0x0", " rootfs offset: 0x100"]⟩] =
      some (false, []) := by
  refine ⟨by decide, by decide, by decide⟩

/-- Claim C2 (amended): for a TRX finding reached with neither status done
that supplies the two offsets and no lengths, *and whose kernel offset is
nonzero* (the source's guard `kernel_offset != rootfs_size` degenerates to
`kernel_offset != 0` when both parsed lengths are 0), the engine infers
`kernel_len = rootfs_offset - kernel_offset` and
`rootfs_len = filesize - rootfs_offset` before the bound checks, and with
`0 < kernel_offset < rootfs_offset < filesize` those checks pass and the
two slices `[kernel_offset, rootfs_offset)` and `[rootfs_offset, filesize)`
are carved into child nodes at the node's own depth. -/
theorem claim_C2_amended_trx :
    (∀ (fsz koff roff : Int), koff ≠ 0 →
       trxInferSizes fsz koff 0 roff 0 = (roff - koff, fsz - roff)) ∧
    (∀ (env : FwEnv) (pre : List Finding) (f : Finding) (rest : List Finding) (koff roff : Int),
       (∀ e ∈ pre, findingContains e "uImage header" = false ∧
                   findingContains e "kernel offset: " = false) →
       env.kernelStatus = false → env.rootfsStatus = false →
       findingContains f "uImage header" = false →
       findingContains f "rootfs offset: " = true →
       findingContains f "kernel offset: " = true →
       parseTrx f.stmts = some (koff, 0, roff, 0) →
       0 < koff → koff < roff → roff < (env.item.length : Int) →
       checkFirmware env (pre ++ f :: rest) =
         some (env.updateStatus,
           [((env.item.drop koff.toNat).take (roff - koff).toNat, env.depth),
            ((env.item.drop roff.toNat).take ((env.item.length : Int) - roff).toNat,
             env.depth)])) := by
  constructor
  · intro fsz koff roff hk
    simp [trxInferSizes, hk]
  · intro env pre f rest koff roff hpre hks hrs hu hro hko hp h0 hkr hrl
    rw [checkFirmware_skip env pre (f :: rest) hpre]
    simp only [checkFirmware, hu, Bool.false_eq_true, if_false, hks, hrs, Bool.not_false,
      hro, hko, Bool.and_self, if_true, hp]
    have hinf : trxInferSizes (env.item.length : Int) koff 0 roff 0 =
        (roff - koff, (env.item.length : Int) - roff) := by
      simp [trxInferSizes, ne_of_gt h0]
    rw [hinf]
    have hguard : 0 < roff - koff ∧ koff + (roff - koff) ≤ (env.item.length : Int) ∧
        (env.item.length : Int) - roff ≠ 0 ∧
        roff + ((env.item.length : Int) - roff) ≤ (env.item.length : Int) := by
      refine ⟨by omega, by omega, by omega, by omega⟩
    rw [if_pos hguard]
    have hk1 : io_dd_int env.item koff (roff - koff) =
        some ((env.item.drop koff.toNat).take (roff - koff).toNat) := by
      rw [io_dd_int]
      rw [if_neg (by omega), if_neg (by omega), if_neg (by omega)]
    have hk2 : io_dd_int env.item roff ((env.item.length : Int) - roff) =
        some ((env.item.drop roff.toNat).take ((env.item.length : Int) - roff).toNat) := by
      rw [io_dd_int]
      rw [if_neg (by omega), if_neg (by omega), if_neg (by omega)]
    rw [hk1, hk2]

set_option maxRecDepth 4000 in
/-- Witness for C2: offsets `0x40` and `0x100` in a 512-byte item; the
inference yields sizes 192 and 256 and both slices are carved at the
node's depth. -/
theorem claim_C2_witness :
    trxInferSizes 512 64 0 256 0 = (256 - 64, 512 - 256) ∧
    checkFirmware fwEnvNull [⟨0, ["kernel offset: 0x40", " rootfs offset: 0x100"]⟩] =
      some (fwEnvNull.updateStatus,
        [((fwEnvNull.item.drop (64 : Int).toNat).take ((256 : Int) - 64).toNat,
          fwEnvNull.depth),
         ((fwEnvNull.item.drop (256 : Int).toNat).take
             ((fwEnvNull.item.length : Int) - 256).toNat, fwEnvNull.depth)]) :=
  ⟨claim_C2_amended_trx.1 512 64 256 (by decide),
   claim_C2_amended_trx.2 fwEnvNull [] ⟨0, ["kernel offset: 0x40", " rootfs offset: 0x100"]⟩
     [] 64 256 (by simp) rfl rfl (by decide) (by decide) (by decide) (by decide) (by decide)
     (by decide) (by decide)⟩

/-! ### Claim C4: the root detector -/

/-- A directory with two or more entries is not a single-child chain, so
the unwrap loop leaves it alone. -/
theorem unwrapChain_multi :
    ∀ (cs : List (String × FsTree)), 2 ≤ cs.length →
      unwrapChain (.dir cs) = (.dir cs, []) := by
  intro cs hlen
  match cs with
  | [] => simp at hlen
  | [x] => simp at hlen
  | a :: b :: t => simp [unwrapChain]

/-- The unwrap loop descends through a singleton directory entry that is
itself a directory. -/
theorem unwrapChain_single_dir (n : String) (cs : List (String × FsTree)) :
    unwrapChain (FsTree.dir [(n, FsTree.dir cs)]) =
      ((unwrapChain (FsTree.dir cs)).1, n :: (unwrapChain (FsTree.dir cs)).2) := by
  simp [unwrapChain, FsTree.isDirB]

/-- A tree with at least one counted UNIX subdirectory is a directory with
at least as many entries as the count. -/
theorem countUnix_le_children :
    ∀ (t : FsTree), countUnix t ≤ (childrenOf t).length := by
  intro t
  exact List.length_filter_le _ _

/-- Claim C4: (i) a directory with at least `UNIX_THRESHOLD = 4` immediate
UNIX-named subdirectories is detected as a root, returned as itself
(relative path `[]`); (ii) for a single-child chain `D/a/b/C` where `C`
has at least 4 UNIX subdirectories, the detector unwraps the chain and
returns `C` (relative path `[a, b]`); (iii) when neither the unwrapped
directory qualifies nor — with `recurse = true` — any of its immediate
subdirectories qualifies under the `recurse = false` test, the detector
returns `(false, original start)` (relative path `[]` denotes the original
`start` argument, not the unwrapped directory). -/
theorem claim_C4_root_detector :
    (∀ (cs : List (String × FsTree)) (r : Bool),
       UNIX_THRESHOLD ≤ countUnix (.dir cs) →
       io_find_rootfs (.dir cs) r = (true, [])) ∧
    (∀ (a b : String) (c : FsTree) (r : Bool),
       UNIX_THRESHOLD ≤ countUnix c →
       io_find_rootfs (.dir [(a, .dir [(b, c)])]) r = (true, [a, b])) ∧
    (∀ (start : FsTree),
       countUnix (unwrapChain start).1 < UNIX_THRESHOLD →
       (∀ p ∈ childrenOf (unwrapChain start).1,
          ¬(p.2.isDirB = true ∧ qualifiesNR p.2 = true)) →
       io_find_rootfs start true = (false, [])) := by
  have hdir : ∀ (t : FsTree), UNIX_THRESHOLD ≤ countUnix t →
      ∃ cs, t = FsTree.dir cs ∧ 2 ≤ cs.length := by
    intro t hc
    match t with
    | .file =>
      simp [countUnix, childrenOf, UNIX_THRESHOLD] at hc
    | .dir cs =>
      refine ⟨cs, rfl, ?_⟩
      have := countUnix_le_children (.dir cs)
      simp only [childrenOf] at this
      simp only [UNIX_THRESHOLD] at hc
      omega
  have hself : ∀ (t : FsTree), UNIX_THRESHOLD ≤ countUnix t →
      unwrapChain t = (t, []) := by
    intro t hc
    obtain ⟨cs, rfl, hlen⟩ := hdir t hc
    exact unwrapChain_multi cs hlen
  refine ⟨?_, ?_, ?_⟩
  · intro cs r hc
    rw [io_find_rootfs, hself _ hc]
    simp [hc]
  · intro a b c r hc
    obtain ⟨cs, rfl, hlen⟩ := hdir c hc
    have hu : unwrapChain (.dir [(a, .dir [(b, FsTree.dir cs)])]) = (FsTree.dir cs, [a, b]) := by
      rw [unwrapChain_single_dir, unwrapChain_single_dir, unwrapChain_multi cs hlen]
    rw [io_find_rootfs, hu]
    simp [hc]
  · intro start hlt hsub
    rw [io_find_rootfs]
    have hnone :
        (childrenOf (unwrapChain start).1).find?
          (fun p => p.2.isDirB && qualifiesNR p.2) = none := by
      apply List.find?_eq_none.mpr
      intro p hp
      have h := hsub p hp
      simp only [Bool.and_eq_true]
      exact fun hc => h ⟨hc.1, hc.2⟩
    rw [hnone]
    simp [Nat.not_le.mpr hlt]

/-- Witness for C4: the three branches at concrete trees. -/
theorem claim_C4_witness :
    io_find_rootfs rootSample true = (true, []) ∧
    io_find_rootfs (.dir [("a", .dir [("b", rootSample)])]) false = (true, ["a", "b"]) ∧
    io_find_rootfs (.dir [("x", .file), ("y", .dir [])]) true = (false, []) := by
  refine ⟨claim_C4_root_detector.1 _ true (by decide),
          claim_C4_root_detector.2.1 "a" "b" rootSample false (by decide), ?_⟩
  apply claim_C4_root_detector.2.2
  · rw [unwrapChain_multi _ (by decide)]
    decide
  · rw [unwrapChain_multi _ (by decide)]
    intro p hp
    simp only [childrenOf, List.mem_cons, List.mem_singleton, List.not_mem_nil, or_false] at hp
    rcases hp with rfl | rfl
    · simp [FsTree.isDirB]
    · intro hcon
      have hq : qualifiesNR (FsTree.dir []) = true := hcon.2
      have hq2 : qualifiesNR (FsTree.dir []) = false := by
        simp [qualifiesNR, unwrapChain, countUnix, childrenOf, UNIX_THRESHOLD]
      rw [hq2] at hq
      cases hq

/-! ### Claim C8: child ordering -/

/-- Stable insertion produces a permutation of pushing the element on
front. -/
theorem insertStable_perm (le : String → String → Bool) (x : String) :
    ∀ l, List.Perm (insertStable le x l) (x :: l) := by
  intro l
  induction l with
  | nil => simp [insertStable]
  | cons y ys ih =>
    simp only [insertStable]
    split
    · exact (ih.cons y).trans (List.Perm.swap x y ys)
    · exact List.Perm.refl _

/-- The insertion-sort fold permutes its input onto its accumulator. -/
theorem stableSort_fold_perm (le : String → String → Bool) :
    ∀ (l acc : List String),
      List.Perm (List.foldl (fun a x => insertStable le x a) acc l) (acc ++ l) := by
  intro l
  induction l with
  | nil => intro acc; simp
  | cons x xs ih =>
    intro acc
    have h1 := ih (insertStable le x acc)
    have h2 : List.Perm (insertStable le x acc ++ xs) ((x :: acc) ++ xs) :=
      (insertStable_perm le x acc).append_right xs
    have h3 : List.Perm ((x :: acc) ++ xs) (acc ++ x :: xs) := by
      simpa using List.perm_middle.symm
    simpa using (h1.trans h2).trans h3

/-- `stableSort` permutes its input. -/
theorem stableSort_perm (le : String → String → Bool) (l : List String) :
    List.Perm (stableSort le l) l := by
  simpa using stableSort_fold_perm le l []

/-- Totality of the lexicographic comparison. -/
theorem lexLe_total : ∀ (a b : List Char), lexLe a b = true ∨ lexLe b a = true := by
  intro a
  induction a with
  | nil => intro b; left; rfl
  | cons x xs ih =>
    intro b
    cases b with
    | nil => right; rfl
    | cons y ys =>
      by_cases h1 : x.toNat < y.toNat
      · left; simp [lexLe, h1]
      · by_cases h2 : y.toNat < x.toNat
        · right; simp [lexLe, h2]
        · rcases ih ys with h | h
          · left; simp [lexLe, h1, h2, h]
          · right; simp [lexLe, h1, h2, h]

/-- Transitivity of the lexicographic comparison. -/
theorem lexLe_trans :
    ∀ (a b c : List Char), lexLe a b = true → lexLe b c = true → lexLe a c = true := by
  intro a
  induction a with
  | nil => intro b c _ _; rfl
  | cons x xs ih =>
    intro b c hab hbc
    cases b with
    | nil => simp [lexLe] at hab
    | cons y ys =>
      cases c with
      | nil => simp [lexLe] at hbc
      | cons z zs =>
        simp only [lexLe] at hab hbc ⊢
        by_cases h1 : x.toNat < y.toNat
        · by_cases h2 : y.toNat < z.toNat
          · rw [if_pos (by omega)]
          · simp only [h2, if_false] at hbc
            by_cases h3 : z.toNat < y.toNat
            · simp [h3] at hbc
            · rw [if_pos (by omega)]
        · simp only [h1, if_false] at hab
          by_cases h1b : y.toNat < x.toNat
          · simp [h1b] at hab
          · rw [if_neg h1b] at hab
            by_cases h2 : y.toNat < z.toNat
            · rw [if_pos (by omega)]
            · simp only [h2, if_false] at hbc
              by_cases h3 : z.toNat < y.toNat
              · simp [h3] at hbc
              · rw [if_neg h3] at hbc
                rw [if_neg (by omega), if_neg (by omega)]
                exact ih ys zs hab hbc

/-- Stable insertion preserves sortedness for a total transitive boolean
order. -/
theorem pairwise_insertStable (le : String → String → Bool)
    (tot : ∀ a b, le a b = true ∨ le b a = true)
    (tr : ∀ a b c, le a b = true → le b c = true → le a c = true)
    (x : String) :
    ∀ l, List.Pairwise (fun a b => le a b = true) l →
      List.Pairwise (fun a b => le a b = true) (insertStable le x l) := by
  intro l
  induction l with
  | nil => intro _; simp [insertStable]
  | cons y ys ih =>
    intro hp
    rw [List.pairwise_cons] at hp
    obtain ⟨hy, hys⟩ := hp
    simp only [insertStable]
    split
    · rename_i hle
      rw [List.pairwise_cons]
      refine ⟨?_, ih hys⟩
      intro z hz
      have hz2 : z = x ∨ z ∈ ys := by
        have := (insertStable_perm le x ys).mem_iff.mp hz
        simpa using this
      rcases hz2 with rfl | hz2
      · exact hle
      · exact hy z hz2
    · rename_i hle
      have hxy : le x y = true := by
        rcases tot x y with h | h
        · exact h
        · exact absurd h hle
      rw [List.pairwise_cons]
      constructor
      · intro z hz
        rcases List.mem_cons.mp hz with rfl | hz2
        · exact hxy
        · exact tr x y z hxy (hy z hz2)
      · exact List.pairwise_cons.mpr ⟨hy, hys⟩

/-- The lexicographic phase of the two-phase sort is sorted. -/
theorem stableSort_lex_sorted (l : List String) :
    List.Pairwise (fun a b => strLexLe a b = true) (stableSort strLexLe l) := by
  have haux : ∀ (m acc : List String),
      List.Pairwise (fun a b => strLexLe a b = true) acc →
      List.Pairwise (fun a b => strLexLe a b = true)
        (List.foldl (fun a x => insertStable strLexLe x a) acc m) := by
    intro m
    induction m with
    | nil => intro acc h; simpa using h
    | cons x xs ih =>
      intro acc h
      simp only [List.foldl_cons]
      exact ih _ (pairwise_insertStable strLexLe
        (fun a b => lexLe_total a.data b.data)
        (fun a b c => lexLe_trans a.data b.data c.data) x acc h)
  simpa [stableSort] using haux l [] (by simp)

/-- Inserting by length into a two-key-sorted list whose elements are all
lexicographically at most the new element preserves two-key sortedness. -/
theorem pairwise_insert_len (x : String) :
    ∀ acc, List.Pairwise twoKeyLe acc →
      (∀ y ∈ acc, strLexLe y x = true) →
      List.Pairwise twoKeyLe (insertStable lenLe x acc) := by
  intro acc
  induction acc with
  | nil => intro _ _; simp [insertStable]
  | cons y ys ih =>
    intro hp hall
    rw [List.pairwise_cons] at hp
    obtain ⟨hy, hys⟩ := hp
    simp only [insertStable]
    split
    · rename_i hle
      rw [List.pairwise_cons]
      refine ⟨?_, ih hys (fun z hz => hall z (by simp [hz]))⟩
      intro z hz
      have hz2 : z = x ∨ z ∈ ys := by
        have := (insertStable_perm lenLe x ys).mem_iff.mp hz
        simpa using this
      rcases hz2 with hzx | hz2
      · subst hzx
        have hlen : y.length ≤ z.length := by
          simpa [lenLe] using hle
        rcases Nat.lt_or_ge y.length z.length with h | h
        · exact Or.inl h
        · exact Or.inr ⟨by omega, hall y (by simp)⟩
      · exact hy z hz2
    · rename_i hle
      have hlen : x.length < y.length := by
        simp only [lenLe, decide_eq_true_eq] at hle
        omega
      rw [List.pairwise_cons]
      constructor
      · intro z hz
        rcases List.mem_cons.mp hz with rfl | hz2
        · exact Or.inl hlen
        · have hyz : y.length ≤ z.length := by
            rcases hy z hz2 with h | h
            · omega
            · omega
          exact Or.inl (by omega)
      · exact List.pairwise_cons.mpr ⟨hy, hys⟩

/-- The length phase, fed a lexicographically sorted list, produces a
two-key-sorted list. -/
theorem pairwise_fold_len :
    ∀ (l acc : List String), List.Pairwise twoKeyLe acc →
      List.Pairwise (fun a b => strLexLe a b = true) l →
      (∀ y ∈ acc, ∀ x ∈ l, strLexLe y x = true) →
      List.Pairwise twoKeyLe (List.foldl (fun a x => insertStable lenLe x a) acc l) := by
  intro l
  induction l with
  | nil => intro acc h _ _; simpa using h
  | cons x xs ih =>
    intro acc hacc hl hcross
    rw [List.pairwise_cons] at hl
    obtain ⟨hx, hxs⟩ := hl
    simp only [List.foldl_cons]
    apply ih
    · exact pairwise_insert_len x acc hacc (fun y hy => hcross y hy x (by simp))
    · exact hxs
    · intro y hy z hz
      have hy2 : y = x ∨ y ∈ acc := by
        have := (insertStable_perm lenLe x acc).mem_iff.mp hy
        simpa using this
      rcases hy2 with rfl | hy2
      · exact hx z hz
      · exact hcross y hy2 z (by simp [hz])

/-- The final child queue is sorted by the two-key order. -/
theorem sortFiles_sorted (files : List String) :
    List.Pairwise twoKeyLe (sortFiles files) := by
  rw [sortFiles, stableSort]
  apply pairwise_fold_len
  · simp
  · exact stableSort_lex_sorted files
  · simp

/-- `sortFiles` permutes its input. -/
theorem sortFiles_perm (files : List String) :
    List.Perm (sortFiles files) files := by
  rw [sortFiles]
  exact (stableSort_perm lenLe _).trans (stableSort_perm strLexLe files)

/-- A successful `orig` parse implies some piece contains the marker. -/
theorem parseOrig_marker :
    ∀ (stmts : List String) (acc : Option String) (orig : String),
      List.foldlM
        (fun acc stmt =>
          if occursIn "original file name:" stmt then
            match splitOnChar '"' stmt.data with
            | _ :: second :: _ => some (some (String.mk second))
            | _ => none
          else some acc) acc stmts = some (some orig) →
      stmtsContain stmts "original file name:" = true ∨ acc = some orig := by
  intro stmts
  induction stmts with
  | nil =>
    intro acc orig h
    simp only [List.foldlM_nil] at h
    right
    exact Option.some.inj h
  | cons s rest ih =>
    intro acc orig h
    simp only [List.foldlM_cons] at h
    by_cases hs : occursIn "original file name:" s
    · left
      simp [stmtsContain, hs]
    · rw [if_neg hs] at h
      simp only [Option.bind_eq_bind, Option.some_bind] at h
      rcases ih acc orig h with hm | hm
      · left
        simp only [stmtsContain, List.any_cons, Bool.or_eq_true]
        right
        simpa [stmtsContain] using hm
      · right
        exact hm

/-- Claim C8: for a container directory that is not itself a UNIX root, the
children of each walked directory are queued in the order produced by
sorting lexicographically and then stably re-sorting by name length — a
permutation of the children that is sorted by (length, then name) — and
when a finding description carries `original file name: "X"` with `X`
among the (sorted) children, `X` is moved to the front of the queue. -/
theorem claim_C8_child_order :
    (∀ files : List String,
       List.Perm (sortFiles files) files ∧ List.Pairwise twoKeyLe (sortFiles files)) ∧
    (∀ (stmts files : List String) (orig : String),
       parseOrig stmts = some (some orig) → orig ≠ "" →
       (sortFiles files).contains orig = true →
       childQueue (some stmts) files = some (orig :: (sortFiles files).erase orig)) := by
  constructor
  · intro files
    exact ⟨sortFiles_perm files, sortFiles_sorted files⟩
  · intro stmts files orig hp hne hcontains
    have hm : stmtsContain stmts "original file name:" = true := by
      rcases parseOrig_marker stmts none orig hp with h | h
      · exact h
      · cases h
    simp only [childQueue, hm, if_true, hp]
    rw [if_pos]
    simp [hne, hcontains]
    simpa using hcontains

/-- Witness for C8: four concrete names sort to `["a", "c", "ab", "bb"]`
shape (shortest first, ties lexicographic) and a restored original file
name is promoted to the front. -/
theorem claim_C8_witness :
    List.Perm (sortFiles ["bb", "a", "ab", "c"]) ["bb", "a", "ab", "c"] ∧
    List.Pairwise twoKeyLe (sortFiles ["bb", "a", "ab", "c"]) ∧
    childQueue (some ["original file name: \"ab\""]) ["bb", "a", "ab", "c"] =
      some ("ab" :: (sortFiles ["bb", "a", "ab", "c"]).erase "ab") :=
  ⟨(claim_C8_child_order.1 ["bb", "a", "ab", "c"]).1,
   (claim_C8_child_order.1 ["bb", "a", "ab", "c"]).2,
   claim_C8_child_order.2 ["original file name: \"ab\""] ["bb", "a", "ab", "c"] "ab"
     (by decide) (by decide) (by decide)⟩
